import Mathlib

/-!
Shallow embedding of the shop-database natural-language query interpreter and
sales/cost aggregation engine.

JS strings are modelled as lists of natural-number code points (`List Nat`),
matching the sequence-of-code-units view of JavaScript strings; the `str`
helper converts a Lean string literal to that representation.  `toLowerCase`
is modelled on the ASCII range, which covers every keyword and every input the
interpreter compares against.  Rational numbers stand in for JS floating-point
arithmetic, taking the arithmetic exactly.
-/

namespace ShopDB

/-- Code-point list of a string literal. -/
def str (s : String) : List Nat := s.data.map Char.toNat

/-- Whitespace test covering the ASCII whitespace characters recognised by
JS `trim` and the `\s` character class: tab, LF, VT, FF, CR, space. -/
def isWs (n : Nat) : Bool := decide (n = 32 ∨ (9 ≤ n ∧ n ≤ 13))

/-- ASCII lower-casing of one code point, as `toLowerCase` acts on ASCII. -/
def lowerChar (n : Nat) : Nat := if 65 ≤ n ∧ n ≤ 90 then n + 32 else n

/-- Upper-case ASCII letter test. -/
def isUpperN (n : Nat) : Bool := decide (65 ≤ n ∧ n ≤ 90)

/-- `String.prototype.toLowerCase`, restricted to ASCII. -/
def toLowerL (l : List Nat) : List Nat := l.map lowerChar

/-- `String.prototype.trim`: drop whitespace from both ends. -/
def trim (l : List Nat) : List Nat :=
  ((l.dropWhile isWs).reverse.dropWhile isWs).reverse

/-- Is `n` a prefix of the second list? (used to implement substring search) -/
def isPrefOf : List Nat → List Nat → Bool
  | [], _ => true
  | _ :: _, [] => false
  | a :: as, b :: bs => (a == b) && isPrefOf as bs

/-- Is the first list a contiguous sublist of the second? -/
def isSubOf (n : List Nat) : List Nat → Bool
  | [] => n.isEmpty
  | c :: t => isPrefOf n (c :: t) || isSubOf n t

/-- JS `q.includes(pat)`. -/
def includes (q pat : List Nat) : Bool := isSubOf pat q

/-- One token of the stop-phrase regular expression: a literal code point or
`\s+` (one or more whitespace characters, matched greedily; in every
alternative of the source regex `\s+` is followed by a non-whitespace literal,
so greedy matching agrees with backtracking semantics). -/
inductive Rtok
  | lit (c : Nat)
  | wsp
deriving DecidableEq

/-- Literal tokens of a keyword. -/
def litTok (s : String) : List Rtok := (str s).map Rtok.lit

/-- The alternatives of the stop-phrase regex
`sales|sale|revenue|for|of|what|show|get|how\s+many|how\s+much|today|weekly|this\s+week|per\s+day`
in source order (JS alternation tries them left to right at each position). -/
def stopPats : List (List Rtok) :=
  [ litTok "sales", litTok "sale", litTok "revenue", litTok "for", litTok "of",
    litTok "what", litTok "show", litTok "get",
    litTok "how" ++ [Rtok.wsp] ++ litTok "many",
    litTok "how" ++ [Rtok.wsp] ++ litTok "much",
    litTok "today", litTok "weekly",
    litTok "this" ++ [Rtok.wsp] ++ litTok "week",
    litTok "per" ++ [Rtok.wsp] ++ litTok "day" ]

/-- Match one alternative at the head of the input, returning the remainder. -/
def matchPat : List Rtok → List Nat → Option (List Nat)
  | [], l => some l
  | Rtok.lit c :: ts, x :: l => if x = c then matchPat ts l else none
  | Rtok.wsp :: ts, x :: l =>
      if isWs x then matchPat ts (l.dropWhile isWs) else none
  | _ :: _, [] => none

/-- Try the alternatives in order at the head of the input. -/
def firstPat : List (List Rtok) → List Nat → Option (List Nat)
  | [], _ => none
  | p :: ps, l =>
    match matchPat p l with
    | some r => some r
    | none => firstPat ps l

/-- Global regex replacement by the empty string: scan left to right, delete
the first alternative matching at each position, continue after the deleted
match without rescanning.  `fuel` bounds the recursion; every alternative
consumes at least one character, so `fuel = l.length` never runs out. -/
def scanAux : Nat → List Nat → List Nat
  | _, [] => []
  | 0, l => l
  | fuel + 1, c :: rest =>
    match firstPat stopPats (c :: rest) with
    | some rem => scanAux fuel rem
    | none => c :: scanAux fuel rest

/-- `q.replace(/sales|sale|.../gi, "")` from the source. -/
def replaceStops (l : List Nat) : List Nat := scanAux l.length l

/-- `cat.replace(/\s+/g, "_")`: each run of whitespace becomes one `_` (95).
The boolean state records whether we are inside a whitespace run. -/
def wsRunsAux : Bool → List Nat → List Nat
  | _, [] => []
  | inRun, c :: rest =>
    if isWs c then
      (if inRun then wsRunsAux true rest else 95 :: wsRunsAux true rest)
    else c :: wsRunsAux false rest

/-- Normalise a category keyword to the db format (underscores). -/
def wsRunsToUnderscore (l : List Nat) : List Nat := wsRunsAux false l

/-- Reporting period of an interpreted query. -/
inductive Period
  | day
  | week
deriving DecidableEq

/-- Product scope of an interpreted query, mutually exclusive. -/
inductive Scope
  | unscoped
  | byType (t : List Nat)
  | byCategory (c : List Nat)
  | byNamePattern (n : List Nat)
deriving DecidableEq

/-- The interpreted request produced by the query interpreter. -/
structure Interpreted where
  period : Period
  scope : Scope
deriving DecidableEq

/-- The only failure of the interpreter: empty query. -/
inductive QueryError
  | emptyQuery
deriving DecidableEq

/-- Type keywords checked first, in source order. -/
def typeKeywords : List (List Nat) := [str "hair", str "perfume", str "skin"]

/-- The fixed ordered category keyword list from the source. -/
def categoryMap : List (List Nat) :=
  [ str "shampoo", str "conditioner", str "gucci", str "victoria secret",
    str "victoria_secret", str "body lotion", str "body_lotion",
    str "moisturizer" ]

/-- Sequential period assignment from the source: start from `day`, then each
`if` in source order may overwrite the previous value (modelled by let
rebinding). -/
def periodOf (q : List Nat) : Period :=
  let p0 : Period := .day
  let p1 : Period :=
    if includes q (str "week") || includes q (str "weekly")
        || includes q (str "this week") then .week else p0
  let p2 : Period := if includes q (str "today") then .day else p1
  if includes q (str "per day") || includes q (str "daily") then .day else p2

/-- The trimmed remainder after stripping stop-phrases. -/
def nameHintOf (q : List Nat) : List Nat := trim (replaceStops q)

/-- Scope chain from the source: type keywords, then the category list (first
match wins), then the stop-phrase-stripped name hint, else unscoped. -/
def scopeOf (q : List Nat) : Scope :=
  if includes q (str "hair") then .byType (str "hair")
  else if includes q (str "perfume") then .byType (str "perfume")
  else if includes q (str "skin") then .byType (str "skin")
  else
    match categoryMap.find? (fun cat => includes q cat) with
    | some cat => .byCategory (wsRunsToUnderscore cat)
    | none =>
      if nameHintOf q ≠ [] then .byNamePattern (nameHintOf q) else .unscoped

/-- `parseSalesQuery` from the source.  The source returns early inside the
scope chain, pairing the already-computed `period` with the chosen scope;
that is equivalent to building the pair once from `periodOf` and `scopeOf`. -/
def parseSalesQuery (query : List Nat) : Except QueryError Interpreted :=
  let q := trim (toLowerL query)
  if q = [] then .error .emptyQuery
  else .ok ⟨periodOf q, scopeOf q⟩

/-- Scope of a parse result, when it succeeded. -/
def resScope : Except QueryError Interpreted → Option Scope
  | .ok r => some r.scope
  | .error _ => none

/-- Period of a parse result, when it succeeded. -/
def resPeriod : Except QueryError Interpreted → Option Period
  | .ok r => some r.period
  | .error _ => none

/-- Did the parse succeed? -/
def isOkE : Except QueryError Interpreted → Bool
  | .ok _ => true
  | .error _ => false

/-- Discriminators for scope constructors. -/
def scopeIsByType : Scope → Bool
  | .byType _ => true
  | _ => false

def scopeIsByCategory : Scope → Bool
  | .byCategory _ => true
  | _ => false

def scopeIsByNamePattern : Scope → Bool
  | .byNamePattern _ => true
  | _ => false

/-- A catalog row (`products` table). Timestamps and the auto identifier play
no role in the claims and are omitted; `cost` and `sales_per_day` are REAL
columns, taken exactly over the rationals. -/
structure Product where
  name : List Nat
  type : List Nat
  category : List Nat
  cost : ℚ
  sales_per_day : ℚ
deriving DecidableEq

/-- One result row of the natural-language query route. -/
structure LineItem where
  name : List Nat
  type : List Nat
  category : List Nat
  cost : ℚ
  sales : ℚ
  revenue : ℚ
  period : Period
deriving DecidableEq

/-- Per-product derivation inside `app.post("/api/query")`. -/
def mkLineItem (period : Period) (p : Product) : LineItem :=
  let daily := p.sales_per_day
  let weekly := daily * 7
  let sales := if period = .week then weekly else daily
  { name := p.name, type := p.type, category := p.category, cost := p.cost,
    sales := sales, revenue := sales * p.cost, period := period }

/-- The aggregation of `app.post("/api/query")`: the mapped line items and the
two `reduce` totals (sum of sales, sum of revenue), in that order. -/
def computeLineItems (ps : List Product) (period : Period) :
    List LineItem × ℚ × ℚ :=
  let results := ps.map (mkLineItem period)
  (results,
   results.foldl (fun s r => s + r.sales) 0,
   results.foldl (fun s r => s + r.revenue) 0)

/-- Lexicographic (byte-wise) comparison of code-point lists, the order SQLite
uses for `ORDER BY` on TEXT with the default BINARY collation. -/
def lexLe : List Nat → List Nat → Bool
  | [], _ => true
  | _ :: _, [] => false
  | a :: as, b :: bs => if a < b then true else if b < a then false else lexLe as bs

/-- Name-ascending order on products (`ORDER BY name`). -/
def byNameAsc (a b : Product) : Prop := lexLe a.name b.name = true

instance : DecidableRel byNameAsc :=
  fun a b => inferInstanceAs (Decidable (lexLe a.name b.name = true))

/-- Name-ascending order on line items. -/
def liNameAsc (a b : LineItem) : Prop := lexLe a.name b.name = true

instance : DecidableRel liNameAsc :=
  fun a b => inferInstanceAs (Decidable (lexLe a.name b.name = true))

/-- Descending sales on line items (what "descending weekly sales" means for
a week-period result row). -/
def liSalesDesc (a b : LineItem) : Prop := b.sales ≤ a.sales

instance : DecidableRel liSalesDesc :=
  fun a b => inferInstanceAs (Decidable (b.sales ≤ a.sales))

/-- The WHERE clause built by `app.post("/api/query")` from the parsed scope:
`type = ?` and `category = ?` are exact (BINARY) equality, `name LIKE ?` with
a `%…%` pattern is a case-insensitive substring match (the pattern itself is
already lower-cased; LIKE wildcards inside the pattern are not modelled). -/
def matchesScope : Scope → Product → Bool
  | .unscoped, _ => true
  | .byType t, p => p.type == t
  | .byCategory c, p => p.category == c
  | .byNamePattern nm, p => includes (toLowerL p.name) nm

/-- Result rows of `app.post("/api/query")`: filter by the interpreted scope,
`ORDER BY name`, then compute line items; `none` when the parse failed. -/
def apiQueryItems (db : List Product) (question : List Nat) :
    Option (List LineItem) :=
  match parseSalesQuery question with
  | .error _ => none
  | .ok r =>
      some (computeLineItems
        (List.insertionSort byNameAsc (db.filter (matchesScope r.scope)))
        r.period).1

/-- One row of the weekly-sales endpoints, with the computed columns. -/
structure WeeklyRow where
  name : List Nat
  type : List Nat
  category : List Nat
  sales_per_day : ℚ
  weekly_sales : ℚ
  cost : ℚ
  weekly_revenue : ℚ
deriving DecidableEq

def mkWeeklyRow (p : Product) : WeeklyRow :=
  { name := p.name, type := p.type, category := p.category,
    sales_per_day := p.sales_per_day, weekly_sales := p.sales_per_day * 7,
    cost := p.cost, weekly_revenue := p.sales_per_day * 7 * p.cost }

/-- `ORDER BY weekly_sales DESC`. -/
def byWeeklyDesc (a b : WeeklyRow) : Prop := b.weekly_sales ≤ a.weekly_sales

instance : DecidableRel byWeeklyDesc :=
  fun a b => inferInstanceAs (Decidable (b.weekly_sales ≤ a.weekly_sales))

/-- `GET /api/sales/weekly?type=…` (same SQL in the MCP `get_weekly_sales`
tool): `WHERE type = ? ORDER BY weekly_sales DESC`. -/
def getWeeklySalesByType (db : List Product) (t : List Nat) : List WeeklyRow :=
  List.insertionSort byWeeklyDesc
    ((db.filter (fun p => p.type == t)).map mkWeeklyRow)

/-- Filter predicate of the listing endpoints (`GET /api/products` and the
`get_products` tool): optional name LIKE, exact type, exact category, ANDed. -/
def matchesFilters (nameF typeF catF : Option (List Nat)) (p : Product) : Bool :=
  (match nameF with
   | some nm => includes (toLowerL p.name) (toLowerL nm)
   | none => true)
  && (match typeF with | some t => p.type == t | none => true)
  && (match catF with | some c => p.category == c | none => true)

/-- Listing endpoint: filter, then `ORDER BY name`. -/
def getProducts (db : List Product) (nameF typeF catF : Option (List Nat)) :
    List Product :=
  List.insertionSort byNameAsc (db.filter (matchesFilters nameF typeF catF))

/-- One group of `GET /api/costs/average` (`get_avg_cost_by_type`). -/
structure TypeStat where
  type : List Nat
  product_count : Nat
  avg_cost : ℚ
  min_cost : ℚ
  max_cost : ℚ
  total_daily_sales : ℚ
deriving DecidableEq

/-- SQL `MIN` over a non-empty group (0 is never used: groups are formed only
from observed rows). -/
def listMin : List ℚ → ℚ
  | [] => 0
  | c :: cs => cs.foldl min c

/-- SQL `MAX` over a non-empty group. -/
def listMax : List ℚ → ℚ
  | [] => 0
  | c :: cs => cs.foldl max c

/-- The aggregates of one `GROUP BY type` group. -/
def statsFor (t : List Nat) (g : List Product) : TypeStat :=
  { type := t, product_count := g.length,
    avg_cost := (g.map Product.cost).sum / (g.length : ℚ),
    min_cost := listMin (g.map Product.cost),
    max_cost := listMax (g.map Product.cost),
    total_daily_sales := (g.map Product.sales_per_day).sum }

/-- Ascending order on type values (`ORDER BY type`). -/
def typeAsc (a b : List Nat) : Prop := lexLe a b = true

instance : DecidableRel typeAsc :=
  fun a b => inferInstanceAs (Decidable (lexLe a b = true))

/-- `SELECT type, COUNT(*), AVG(cost), MIN(cost), MAX(cost),
SUM(sales_per_day) FROM products GROUP BY type ORDER BY type`: one group per
distinct type value observed in the table, ordered ascending. -/
def computeTypeStatistics (ps : List Product) : List TypeStat :=
  (List.insertionSort typeAsc ((ps.map Product.type).dedup)).map
    (fun t => statsFor t (ps.filter (fun p => p.type == t)))

/-- Two hair products whose name order disagrees with their weekly sales
order, used to separate the two sorting policies. -/
def c6ProdA : Product :=
  { name := str "a", type := str "hair", category := str "shampoo",
    cost := 1, sales_per_day := 1 }

def c6ProdB : Product :=
  { name := str "b", type := str "hair", category := str "conditioner",
    cost := 1, sales_per_day := 5 }

def c6Db : List Product := [c6ProdA, c6ProdB]

def c6Question : List Nat := str "weekly hair sales"

/-- The rows the natural-language route returns on that catalog and query. -/
def c6Items : List LineItem := (apiQueryItems c6Db c6Question).getD []

/-- The product set of the spec's `computeTypeStatistics` example:
{(hair, cost 10), (hair, cost 20), (perfume, cost 5)}. -/
def c7P1 : Product :=
  { name := str "p1", type := str "hair", category := str "shampoo",
    cost := 10, sales_per_day := 1 }

def c7P2 : Product :=
  { name := str "p2", type := str "hair", category := str "conditioner",
    cost := 20, sales_per_day := 2 }

def c7P3 : Product :=
  { name := str "p3", type := str "perfume", category := str "gucci",
    cost := 5, sales_per_day := 3 }

def c7Products : List Product := [c7P1, c7P2, c7P3]

/-- Modelled from the spec: the scope-resolution priority chain as §4.1 words
it — type keywords in the fixed order of `typeKeywords`, then the ordered
category list, then the stop-phrase fallback, then unscoped.  Used to compare
the source's chain of early returns against the spec's description. -/
def specScopeChain (q : List Nat) : Scope :=
  match typeKeywords.find? (fun t => includes q t) with
  | some t => .byType t
  | none =>
    match categoryMap.find? (fun c => includes q c) with
    | some c => .byCategory (wsRunsToUnderscore c)
    | none =>
      if nameHintOf q ≠ [] then .byNamePattern (nameHintOf q) else .unscoped

/-! ### Helper lemmas -/

theorem lowerChar_idem (n : Nat) : lowerChar (lowerChar n) = lowerChar n := by
  unfold lowerChar
  by_cases h : 65 ≤ n ∧ n ≤ 90
  · rw [if_pos h, if_neg (by omega)]
  · rw [if_neg h, if_neg h]

theorem toLowerL_idem (l : List Nat) : toLowerL (toLowerL l) = toLowerL l := by
  unfold toLowerL
  induction l with
  | nil => rfl
  | cons x xs ih => simp only [List.map_cons, List.map] at ih ⊢; rw [lowerChar_idem]; simp [ih]

theorem isUpperN_lowerChar (n : Nat) : isUpperN (lowerChar n) = false := by
  unfold isUpperN lowerChar
  by_cases h : 65 ≤ n ∧ n ≤ 90
  · rw [if_pos h]; simp only [decide_eq_false_iff_not]; omega
  · rw [if_neg h]; simpa using h

theorem isWs_lowerChar (n : Nat) : isWs (lowerChar n) = isWs n := by
  unfold isWs lowerChar
  by_cases h : 65 ≤ n ∧ n ≤ 90
  · rw [if_pos h]; simp only [decide_eq_decide]; omega
  · rw [if_neg h]

theorem mem_dropWhile_subset {p : Nat → Bool} {l : List Nat} {x : Nat}
    (h : x ∈ l.dropWhile p) : x ∈ l := by
  induction l with
  | nil => simpa [List.dropWhile] using h
  | cons a as ih =>
    rw [List.dropWhile] at h
    split at h
    · exact List.mem_cons_of_mem a (ih h)
    · exact h

theorem mem_trim_subset {l : List Nat} {x : Nat} (h : x ∈ trim l) : x ∈ l := by
  unfold trim at h
  rw [List.mem_reverse] at h
  exact mem_dropWhile_subset (List.mem_reverse.mp (mem_dropWhile_subset h))

theorem trim_eq_nil_iff (l : List Nat) : trim l = [] ↔ ∀ x ∈ l, isWs x = true := by
  unfold trim
  rw [List.reverse_eq_nil_iff, List.dropWhile_eq_nil_iff]
  constructor
  · intro h x hx
    rcases List.mem_append.mp
        ((List.takeWhile_append_dropWhile isWs l) ▸ hx) with h1 | h1
    · exact List.mem_takeWhile_imp h1
    · exact h x (List.mem_reverse.mpr h1)
  · intro h x hx
    exact h x (mem_dropWhile_subset (List.mem_reverse.mp hx))

theorem dropWhile_suffix_of (p : Nat → Bool) (l : List Nat) :
    l.dropWhile p <:+ l := by
  induction l with
  | nil => exact List.suffix_refl _
  | cons a as ih =>
    rw [List.dropWhile]
    split
    · exact ih.trans (List.suffix_cons a as)
    · exact List.suffix_refl _

theorem matchPat_suffix :
    ∀ (ts : List Rtok) (l r : List Nat), matchPat ts l = some r → r <:+ l := by
  intro ts
  induction ts with
  | nil =>
    intro l r h
    simp only [matchPat, Option.some.injEq] at h
    exact h ▸ List.suffix_refl l
  | cons t ts ih =>
    intro l r h
    cases t with
    | lit c =>
      cases l with
      | nil => simp [matchPat] at h
      | cons x xs =>
        rw [matchPat] at h
        split at h
        · exact (ih xs r h).trans (List.suffix_cons x xs)
        · exact absurd h (by simp)
    | wsp =>
      cases l with
      | nil => simp [matchPat] at h
      | cons x xs =>
        rw [matchPat] at h
        split at h
        · exact (((ih _ r h).trans (dropWhile_suffix_of isWs xs)).trans
            (List.suffix_cons x xs))
        · exact absurd h (by simp)

theorem firstPat_suffix :
    ∀ (ps : List (List Rtok)) (l r : List Nat), firstPat ps l = some r → r <:+ l := by
  intro ps
  induction ps with
  | nil => intro l r h; simp [firstPat] at h
  | cons p ps ih =>
    intro l r h
    rw [firstPat] at h
    cases hm : matchPat p l with
    | some s => rw [hm] at h; cases h; exact matchPat_suffix p l r hm
    | none => rw [hm] at h; exact ih l r h

theorem scanAux_subset :
    ∀ (fuel : Nat) (l : List Nat) (x : Nat), x ∈ scanAux fuel l → x ∈ l := by
  intro fuel
  induction fuel with
  | zero =>
    intro l x h
    cases l with
    | nil => simpa [scanAux] using h
    | cons c rest => simpa [scanAux] using h
  | succ n ih =>
    intro l x h
    cases l with
    | nil => simpa [scanAux] using h
    | cons c rest =>
      rw [scanAux] at h
      cases hm : firstPat stopPats (c :: rest) with
      | some rem =>
        rw [hm] at h
        exact (firstPat_suffix stopPats (c :: rest) rem hm).subset (ih rem x h)
      | none =>
        rw [hm] at h
        rcases List.mem_cons.mp h with h1 | h1
        · exact h1 ▸ List.mem_cons_self c rest
        · exact List.mem_cons_of_mem c (ih rest x h1)

theorem mem_replaceStops_subset {l : List Nat} {x : Nat}
    (h : x ∈ replaceStops l) : x ∈ l :=
  scanAux_subset l.length l x h

theorem parse_nonempty (l : List Nat) (h : trim (toLowerL l) ≠ []) :
    parseSalesQuery l
      = .ok ⟨periodOf (trim (toLowerL l)), scopeOf (trim (toLowerL l))⟩ := by
  simp [parseSalesQuery, h]

theorem lexLe_total : ∀ a b : List Nat, lexLe a b = true ∨ lexLe b a = true := by
  intro a
  induction a with
  | nil => intro b; left; rfl
  | cons x xs ih =>
    intro b
    cases b with
    | nil => right; rfl
    | cons y ys =>
      by_cases h1 : x < y
      · left; simp [lexLe, h1]
      · by_cases h2 : y < x
        · right; simp [lexLe, h2]
        · have hxy : x = y := by omega
          subst hxy
          rcases ih ys with h | h
          · left; simpa [lexLe, h1, h2] using h
          · right; simpa [lexLe, h1, h2] using h

theorem lexLe_trans :
    ∀ a b c : List Nat, lexLe a b = true → lexLe b c = true → lexLe a c = true := by
  intro a
  induction a with
  | nil => intro b c _ _; rfl
  | cons x xs ih =>
    intro b c hab hbc
    cases b with
    | nil => simp [lexLe] at hab
    | cons y ys =>
      cases c with
      | nil => simp [lexLe] at hbc
      | cons z zs =>
        rw [lexLe] at hab hbc ⊢
        split at hab
        · -- x < y
          split at hbc
          · rw [if_pos (by omega)]
          · split at hbc
            · exact absurd hbc (by simp)
            · rw [if_pos (by omega)]
        · split at hab
          · exact absurd hab (by simp)
          · -- x = y
            split at hbc
            · rw [if_pos (by omega)]
            · split at hbc
              · exact absurd hbc (by simp)
              · -- y = z
                rw [if_neg (by omega), if_neg (by omega)]
                exact ih ys zs hab hbc

instance : IsTotal Product byNameAsc := ⟨fun a b => lexLe_total a.name b.name⟩

instance : IsTrans Product byNameAsc :=
  ⟨fun a b c => lexLe_trans a.name b.name c.name⟩

instance : IsTotal WeeklyRow byWeeklyDesc :=
  ⟨fun a b => by
    unfold byWeeklyDesc
    exact (le_total a.weekly_sales b.weekly_sales).symm⟩

instance : IsTrans WeeklyRow byWeeklyDesc :=
  ⟨fun a b c hab hbc => by
    unfold byWeeklyDesc at hab hbc ⊢
    exact le_trans hbc hab⟩

instance : IsTotal (List Nat) typeAsc := ⟨lexLe_total⟩

instance : IsTrans (List Nat) typeAsc := ⟨lexLe_trans⟩

theorem foldl_add_map {α : Type} (f : α → ℚ) (l : List α) (a : ℚ) :
    l.foldl (fun s r => s + f r) a = a + (l.map f).sum := by
  induction l generalizing a with
  | nil => simp
  | cons x xs ih => simp only [List.foldl_cons, List.map_cons, List.sum_cons, ih]; ring

theorem foldl_min_le_init (l : List ℚ) (a : ℚ) : l.foldl min a ≤ a := by
  induction l generalizing a with
  | nil => exact le_refl a
  | cons x xs ih => exact le_trans (ih (min a x)) (min_le_left a x)

theorem foldl_min_le_mem (l : List ℚ) : ∀ (a x : ℚ), x ∈ l → l.foldl min a ≤ x := by
  induction l with
  | nil => intro a x h; cases h
  | cons y ys ih =>
    intro a x h
    simp only [List.foldl_cons]
    rcases List.mem_cons.mp h with h1 | h1
    · subst h1; exact le_trans (foldl_min_le_init ys (min a x)) (min_le_right a x)
    · exact ih (min a y) x h1

theorem foldl_min_mem (l : List ℚ) (a : ℚ) :
    l.foldl min a = a ∨ l.foldl min a ∈ l := by
  induction l generalizing a with
  | nil => left; rfl
  | cons y ys ih =>
    rcases ih (min a y) with h | h
    · rcases min_choice a y with hc | hc
      · left; rw [List.foldl_cons, h, hc]
      · right; rw [List.foldl_cons, h, hc]; exact List.mem_cons_self y ys
    · right; exact List.mem_cons_of_mem y h

theorem foldl_max_init_le (l : List ℚ) (a : ℚ) : a ≤ l.foldl max a := by
  induction l generalizing a with
  | nil => exact le_refl a
  | cons x xs ih =>
    simp only [List.foldl_cons]
    exact le_trans (le_max_left a x) (ih (max a x))

theorem foldl_max_mem_le (l : List ℚ) : ∀ (a x : ℚ), x ∈ l → x ≤ l.foldl max a := by
  induction l with
  | nil => intro a x h; cases h
  | cons y ys ih =>
    intro a x h
    simp only [List.foldl_cons]
    rcases List.mem_cons.mp h with h1 | h1
    · subst h1; exact le_trans (le_max_right a x) (foldl_max_init_le ys (max a x))
    · exact ih (max a y) x h1

theorem foldl_max_mem (l : List ℚ) (a : ℚ) :
    l.foldl max a = a ∨ l.foldl max a ∈ l := by
  induction l generalizing a with
  | nil => left; rfl
  | cons y ys ih =>
    rcases ih (max a y) with h | h
    · rcases max_choice a y with hc | hc
      · left; rw [List.foldl_cons, h, hc]
      · right; rw [List.foldl_cons, h, hc]; exact List.mem_cons_self y ys
    · right; exact List.mem_cons_of_mem y h

theorem listMin_mem (l : List ℚ) (h : l ≠ []) : listMin l ∈ l := by
  cases l with
  | nil => exact absurd rfl h
  | cons c cs =>
    rcases foldl_min_mem cs c with h1 | h1
    · rw [listMin, h1]; exact List.mem_cons_self c cs
    · exact List.mem_cons_of_mem c h1

theorem listMin_le (l : List ℚ) (x : ℚ) (h : x ∈ l) : listMin l ≤ x := by
  cases l with
  | nil => cases h
  | cons c cs =>
    rcases List.mem_cons.mp h with h1 | h1
    · exact h1 ▸ foldl_min_le_init cs c
    · exact foldl_min_le_mem cs c x h1

theorem listMax_mem (l : List ℚ) (h : l ≠ []) : listMax l ∈ l := by
  cases l with
  | nil => exact absurd rfl h
  | cons c cs =>
    rcases foldl_max_mem cs c with h1 | h1
    · rw [listMax, h1]; exact List.mem_cons_self c cs
    · exact List.mem_cons_of_mem c h1

theorem le_listMax (l : List ℚ) (x : ℚ) (h : x ∈ l) : x ≤ listMax l := by
  cases l with
  | nil => cases h
  | cons c cs =>
    rcases List.mem_cons.mp h with h1 | h1
    · exact h1 ▸ foldl_max_init_le cs c
    · exact foldl_max_mem_le cs c x h1

theorem mkLineItem_sales_week (p : Product) :
    (mkLineItem .week p).sales = p.sales_per_day * 7 := by
  simp [mkLineItem]

theorem mkLineItem_sales_day (p : Product) :
    (mkLineItem .day p).sales = p.sales_per_day := by
  simp [mkLineItem]

theorem mkLineItem_revenue (period : Period) (p : Product) :
    (mkLineItem period p).revenue = (mkLineItem period p).sales * p.cost := by
  cases period <;> simp [mkLineItem]

theorem mkLineItem_name (period : Period) (p : Product) :
    (mkLineItem period p).name = p.name := rfl

theorem cts_types (ps : List Product) :
    (computeTypeStatistics ps).map TypeStat.type
      = List.insertionSort typeAsc ((ps.map Product.type).dedup) := by
  simp only [computeTypeStatistics, List.map_map]
  exact List.map_id _

/-! ### Claim theorems -/

/-- C3: `interpret` fails with an `EmptyQueryError` exactly when the trimmed,
lower-cased input is empty: `interpret("")` and `interpret("   ")` produce the
error, and every input containing at least one non-whitespace character
produces an `InterpretedRequest`, never the error. -/
theorem c3_empty_query_error (l : List Nat) :
    (parseSalesQuery l = .error .emptyQuery ↔ trim (toLowerL l) = [])
    ∧ (trim (toLowerL l) = [] ↔ l.all isWs = true)
    ∧ parseSalesQuery (str "") = .error .emptyQuery
    ∧ parseSalesQuery (str "   ") = .error .emptyQuery
    ∧ (l.all isWs = false → isOkE (parseSalesQuery l) = true) := by
  have hiff : trim (toLowerL l) = [] ↔ l.all isWs = true := by
    rw [trim_eq_nil_iff, List.all_eq_true]
    constructor
    · intro h x hx
      have h2 := h (lowerChar x) (List.mem_map_of_mem lowerChar hx)
      rwa [isWs_lowerChar] at h2
    · intro h y hy
      rcases List.mem_map.mp hy with ⟨x, hx, rfl⟩
      rw [isWs_lowerChar]
      exact h x hx
  refine ⟨?_, hiff, rfl, rfl, ?_⟩
  · unfold parseSalesQuery
    by_cases h : trim (toLowerL l) = [] <;> simp [h]
  · intro hall
    have hne : trim (toLowerL l) ≠ [] := fun hh => by
      rw [hiff.mp hh] at hall
      cases hall
    rw [parse_nonempty l hne]
    rfl

/-- Witness for C3 at the concrete input `" weekly sales "`. -/
theorem c3_witness : isOkE (parseSalesQuery (str " weekly sales ")) = true :=
  (c3_empty_query_error (str " weekly sales ")).2.2.2.2 (by decide)

/-- C4: with period Week, `computeLineItems` totals are
`sum(sales_per_day) * 7` and `sum(sales_per_day * 7 * cost)`; with period Day
the sales total is `sum(sales_per_day)`; per line item, scoped sales is
`sales_per_day * 7` for Week and `sales_per_day` for Day, and scoped revenue
is scoped sales times cost — exactly, over the rationals. -/
theorem c4_compute_line_items (ps : List Product) :
    (computeLineItems ps .week).2.1 = (ps.map Product.sales_per_day).sum * 7
    ∧ (computeLineItems ps .week).2.2
        = (ps.map (fun p => p.sales_per_day * 7 * p.cost)).sum
    ∧ (computeLineItems ps .day).2.1 = (ps.map Product.sales_per_day).sum
    ∧ (∀ p : Product,
        (mkLineItem .week p).sales = p.sales_per_day * 7
        ∧ (mkLineItem .day p).sales = p.sales_per_day
        ∧ ∀ period : Period,
            (mkLineItem period p).revenue = (mkLineItem period p).sales * p.cost) := by
  refine ⟨?_, ?_, ?_, fun p =>
    ⟨mkLineItem_sales_week p, mkLineItem_sales_day p,
     fun period => mkLineItem_revenue period p⟩⟩
  · show (ps.map (mkLineItem .week)).foldl (fun s r => s + r.sales) 0 = _
    rw [foldl_add_map, List.map_map, zero_add]
    exact List.sum_map_mul_right ps Product.sales_per_day 7
  · show (ps.map (mkLineItem .week)).foldl (fun s r => s + r.revenue) 0 = _
    rw [foldl_add_map, List.map_map, zero_add]
    rfl
  · show (ps.map (mkLineItem .day)).foldl (fun s r => s + r.sales) 0 = _
    rw [foldl_add_map, List.map_map, zero_add]
    rfl

/-- C5 counterexample: on `"how much does Luxury Shampoo sell"`, the scope is
`ByCategory("shampoo")` — the category keyword "shampoo" matches before the
name-pattern fallback is reached, so the scope is not a `ByNamePattern`. -/
theorem c5_counterexample_category_wins :
    resScope (parseSalesQuery (str "how much does Luxury Shampoo sell"))
      = some (Scope.byCategory (str "shampoo"))
    ∧ (resScope (parseSalesQuery (str "how much does Luxury Shampoo sell"))).map
        scopeIsByNamePattern = some false :=
  ⟨rfl, rfl⟩

/-- C5 amended: `interpret("how much does Luxury Shampoo sell")` yields period
Day and scope `ByCategory("shampoo")`: the category check precedes the
name-pattern fallback, so no stop-phrase stripping occurs for this input. -/
theorem c5_amended_category_scope :
    parseSalesQuery (str "how much does Luxury Shampoo sell")
      = .ok ⟨Period.day, Scope.byCategory (str "shampoo")⟩ := rfl

/-- C10: the stop-phrase stripping has no word-boundary protection:
`interpret("forest")` yields period Day and scope `ByNamePattern("est")`
because the stop-word "for" is deleted out of the middle of "forest", even
though "for" occurs only as an inner substring of a longer word. -/
theorem c10_inner_stop_word_stripped :
    parseSalesQuery (str "forest")
      = .ok ⟨Period.day, Scope.byNamePattern (str "est")⟩
    ∧ includes (str "forest") (str "for") = true
    ∧ str "est" ≠ str "forest" :=
  ⟨rfl, rfl, by decide⟩

/-- C1: for every query whose trimmed lower-cased form is non-empty, the scope
is resolved by the first-match-wins priority chain described by
`specScopeChain` (type keywords in the fixed order hair, perfume, skin, then
the ordered category list, then the name-pattern fallback, then unscoped); in
particular any input containing both a type keyword and a category keyword
resolves to `ByType`, never `ByCategory`. -/
theorem c1_scope_priority (l : List Nat) (h : trim (toLowerL l) ≠ []) :
    resScope (parseSalesQuery l) = some (specScopeChain (trim (toLowerL l)))
    ∧ ((typeKeywords.any (fun t => includes (trim (toLowerL l)) t) = true
        ∧ categoryMap.any (fun c => includes (trim (toLowerL l)) c) = true)
      → (resScope (parseSalesQuery l)).map scopeIsByType = some true
        ∧ (resScope (parseSalesQuery l)).map scopeIsByCategory = some false) := by
  rw [parse_nonempty l h]
  set q := trim (toLowerL l)
  constructor
  · show some (scopeOf q) = some (specScopeChain q)
    congr 1
    unfold scopeOf specScopeChain typeKeywords
    by_cases h1 : includes q (str "hair") = true <;>
      by_cases h2 : includes q (str "perfume") = true <;>
      by_cases h3 : includes q (str "skin") = true <;>
      simp [h1, h2, h3]
  · rintro ⟨hty, _⟩
    have hmain : scopeIsByType (scopeOf q) = true
        ∧ scopeIsByCategory (scopeOf q) = false := by
      unfold scopeOf
      by_cases h1 : includes q (str "hair") = true
      · simp [h1, scopeIsByType, scopeIsByCategory]
      · by_cases h2 : includes q (str "perfume") = true
        · simp [h1, h2, scopeIsByType, scopeIsByCategory]
        · by_cases h3 : includes q (str "skin") = true
          · simp [h1, h2, h3, scopeIsByType, scopeIsByCategory]
          · exfalso
            simp [typeKeywords, h1, h2, h3] at hty
    constructor
    · show some (scopeIsByType (scopeOf q)) = some true
      rw [hmain.1]
    · show some (scopeIsByCategory (scopeOf q)) = some false
      rw [hmain.2]

/-- Witness for C1 at `"weekly hair gucci sales"`, which contains the type
keyword "hair" and the category keyword "gucci" and resolves to type. -/
theorem c1_witness :
    resScope (parseSalesQuery (str "weekly hair gucci sales"))
      = some (Scope.byType (str "hair"))
    ∧ (resScope (parseSalesQuery (str "weekly hair gucci sales"))).map
        scopeIsByCategory = some false := by
  have h := c1_scope_priority (str "weekly hair gucci sales") (by decide)
  exact ⟨h.1.trans (by decide), (h.2 ⟨by decide, by decide⟩).2⟩

/-- C2: for every query whose trimmed lower-cased form is non-empty, the
period follows the fixed rule order (default Day; week keywords set Week;
"today" then forces Day; "per day"/"daily" then force Day), so "week" together
with "today" or with "daily" yields Day, while "week" with none of the
Day-forcing phrases yields Week. -/
theorem c2_period_rules (l : List Nat) (h : trim (toLowerL l) ≠ []) :
    resPeriod (parseSalesQuery l)
      = some (if includes (trim (toLowerL l)) (str "per day")
                  || includes (trim (toLowerL l)) (str "daily") then Period.day
              else if includes (trim (toLowerL l)) (str "today") then Period.day
              else if includes (trim (toLowerL l)) (str "week")
                  || includes (trim (toLowerL l)) (str "weekly")
                  || includes (trim (toLowerL l)) (str "this week") then Period.week
              else Period.day)
    ∧ (includes (trim (toLowerL l)) (str "week") = true
        ∧ includes (trim (toLowerL l)) (str "today") = true
        → resPeriod (parseSalesQuery l) = some Period.day)
    ∧ (includes (trim (toLowerL l)) (str "week") = true
        ∧ includes (trim (toLowerL l)) (str "daily") = true
        → resPeriod (parseSalesQuery l) = some Period.day)
    ∧ (includes (trim (toLowerL l)) (str "week") = true
        ∧ includes (trim (toLowerL l)) (str "today") = false
        ∧ includes (trim (toLowerL l)) (str "per day") = false
        ∧ includes (trim (toLowerL l)) (str "daily") = false
        → resPeriod (parseSalesQuery l) = some Period.week) := by
  rw [parse_nonempty l h]
  set q := trim (toLowerL l)
  have hres :
      resPeriod (Except.ok (⟨periodOf q, scopeOf q⟩ : Interpreted))
        = some (periodOf q) := rfl
  refine ⟨?_, ?_, ?_, ?_⟩
  · rw [hres]
    rfl
  · rintro ⟨_, ht⟩
    rw [hres]
    simp [periodOf, ht]
  · rintro ⟨_, hd⟩
    rw [hres]
    simp [periodOf, hd]
  · rintro ⟨hw, ht, hpd, hdl⟩
    rw [hres]
    simp [periodOf, hw, ht, hpd, hdl]

/-- Witness for C2 at `"sales this week"`: contains "week", none of the
Day-forcing phrases, and resolves to Week. -/
theorem c2_witness :
    resPeriod (parseSalesQuery (str "sales this week")) = some Period.week :=
  (c2_period_rules (str "sales this week") (by decide)).2.2.2
    ⟨by decide, by decide, by decide, by decide⟩

/-- C8: when scope is resolved by a category keyword, the keywords are tried
in the fixed order of `categoryMap`, the first substring match wins, and the
returned `ByCategory` value is the matched keyword with each whitespace run
replaced by a single underscore. -/
theorem c8_category_keyword_normalized (l : List Nat)
    (h : trim (toLowerL l) ≠ [])
    (hty : ∀ t ∈ typeKeywords, includes (trim (toLowerL l)) t = false)
    (c : List Nat)
    (hc : categoryMap.find? (fun cat => includes (trim (toLowerL l)) cat) = some c) :
    resScope (parseSalesQuery l) = some (Scope.byCategory (wsRunsToUnderscore c)) := by
  rw [parse_nonempty l h]
  set q := trim (toLowerL l)
  show some (scopeOf q) = _
  congr 1
  have h1 := hty (str "hair") (by simp [typeKeywords])
  have h2 := hty (str "perfume") (by simp [typeKeywords])
  have h3 := hty (str "skin") (by simp [typeKeywords])
  unfold scopeOf
  simp [h1, h2, h3, hc]

/-- Witness for C8 at `"sales of victoria secret"`: no type keyword matches,
the first matching category keyword is "victoria secret", and the scope value
is its underscore-normalized form. -/
theorem c8_witness :
    resScope (parseSalesQuery (str "sales of victoria secret"))
      = some (Scope.byCategory (str "victoria_secret")) := by
  have h := c8_category_keyword_normalized (str "sales of victoria secret")
    (by decide) (by decide) (str "victoria secret") (by decide)
  exact h.trans (by decide)

/-- C9: `interpret` is case-insensitive — it gives the same result on an input
and on its lower-cased form — and every `ByNamePattern` value it returns
contains no upper-case ASCII letter (the original casing never reaches the
result). -/
theorem c9_lowercase_invariance (l : List Nat) :
    parseSalesQuery (toLowerL l) = parseSalesQuery l
    ∧ ∀ r : Interpreted, parseSalesQuery l = .ok r →
        ∀ n : List Nat, r.scope = .byNamePattern n →
          ∀ x ∈ n, isUpperN x = false := by
  constructor
  · unfold parseSalesQuery
    rw [toLowerL_idem]
  · intro r hr n hn x hx
    by_cases h : trim (toLowerL l) = []
    · rw [parseSalesQuery] at hr
      simp [h] at hr
    · rw [parse_nonempty l h] at hr
      injection hr with hr2
      subst hr2
      have hsc : scopeOf (trim (toLowerL l)) = .byNamePattern n := hn.symm ▸ rfl
      set q := trim (toLowerL l) with hq
      unfold scopeOf at hsc
      by_cases h1 : includes q (str "hair") = true
      · rw [if_pos h1] at hsc
        exact absurd hsc (by simp)
      · rw [if_neg h1] at hsc
        by_cases h2 : includes q (str "perfume") = true
        · rw [if_pos h2] at hsc
          exact absurd hsc (by simp)
        · rw [if_neg h2] at hsc
          by_cases h3 : includes q (str "skin") = true
          · rw [if_pos h3] at hsc
            exact absurd hsc (by simp)
          · rw [if_neg h3] at hsc
            cases hfind : categoryMap.find? (fun cat => includes q cat) with
            | some cat =>
              rw [hfind] at hsc
              exact absurd hsc (by simp)
            | none =>
              rw [hfind] at hsc
              by_cases hnh : nameHintOf q ≠ []
              · rw [if_pos hnh] at hsc
                have hn2 : n = nameHintOf q := by
                  injection hsc with h4
                  exact h4.symm
                subst hn2
                have hx1 : x ∈ replaceStops q := mem_trim_subset hx
                have hx2 : x ∈ q := mem_replaceStops_subset hx1
                have hx3 : x ∈ toLowerL l := mem_trim_subset (hq ▸ hx2)
                rcases List.mem_map.mp hx3 with ⟨y, _, rfl⟩
                exact isUpperN_lowerChar y
              · rw [if_neg hnh] at hsc
                exact absurd hsc (by simp)

/-- Witness for C9 at `"LUXURY CREAM"`, whose result is
`ByNamePattern("luxury cream")`, an all-lower-case pattern. -/
theorem c9_witness :
    parseSalesQuery (toLowerL (str "LUXURY CREAM"))
      = parseSalesQuery (str "LUXURY CREAM")
    ∧ (str "luxury cream").all (fun x => !(isUpperN x)) = true := by
  have h := c9_lowercase_invariance (str "LUXURY CREAM")
  refine ⟨h.1, ?_⟩
  have h2 := h.2 ⟨Period.day, Scope.byNamePattern (str "luxury cream")⟩
    rfl (str "luxury cream") rfl
  rw [List.all_eq_true]
  intro x hx
  rw [h2 x hx]
  rfl

/-- C6 counterexample: on the catalog `c6Db` the natural-language query
`"weekly hair sales"` is interpreted with scope `ByType("hair")` and period
Week, yet the returned rows have sales `[7, 35]` — ordered by name ascending,
not by descending weekly sales as the claim asserts for the
natural-language path. -/
theorem c6_counterexample_nl_path_name_order :
    resScope (parseSalesQuery c6Question) = some (Scope.byType (str "hair"))
    ∧ resPeriod (parseSalesQuery c6Question) = some Period.week
    ∧ c6Items.map LineItem.sales = [(7 : ℚ), 35]
    ∧ ¬ List.Pairwise liSalesDesc c6Items := by
  have he : c6Items = [mkLineItem Period.week c6ProdA, mkLineItem Period.week c6ProdB] :=
    rfl
  refine ⟨rfl, rfl, ?_, ?_⟩
  · show [(1 : ℚ) * 7, (5 : ℚ) * 7] = [(7 : ℚ), 35]
    norm_num
  · intro hp
    rw [he] at hp
    have h2 := (List.pairwise_cons.mp hp).1 (mkLineItem Period.week c6ProdB)
      (List.mem_cons_self _ _)
    have h3 : (5 : ℚ) * 7 ≤ (1 : ℚ) * 7 := h2
    norm_num at h3

/-- C6 amended: listing operations order rows by name ascending, and the
dedicated weekly-sales endpoint scoped by type orders rows by descending
weekly sales; but the natural-language query path always orders its rows by
name ascending — even when its interpreted scope is `ByType` — never by
descending weekly sales. -/
theorem c6_amended_sorting_policies :
    (∀ db nf tf cf, List.Sorted byNameAsc (getProducts db nf tf cf)
        ∧ (getProducts db nf tf cf).Perm (db.filter (matchesFilters nf tf cf)))
    ∧ (∀ db t, List.Sorted byWeeklyDesc (getWeeklySalesByType db t)
        ∧ (getWeeklySalesByType db t).Perm
            ((db.filter (fun p => p.type == t)).map mkWeeklyRow))
    ∧ (∀ db q r, parseSalesQuery q = .ok r →
        ∀ items, apiQueryItems db q = some items →
          List.Pairwise liNameAsc items
          ∧ items.Perm
              ((db.filter (matchesScope r.scope)).map (mkLineItem r.period))) := by
  refine ⟨?_, ?_, ?_⟩
  · intro db nf tf cf
    exact ⟨List.sorted_insertionSort byNameAsc _, List.perm_insertionSort byNameAsc _⟩
  · intro db t
    exact ⟨List.sorted_insertionSort byWeeklyDesc _, List.perm_insertionSort byWeeklyDesc _⟩
  · intro db q r hr items hitems
    unfold apiQueryItems at hitems
    rw [hr] at hitems
    injection hitems with h2
    subst h2
    constructor
    · show List.Pairwise liNameAsc
        ((List.insertionSort byNameAsc (db.filter (matchesScope r.scope))).map
          (mkLineItem r.period))
      rw [List.pairwise_map]
      exact (List.sorted_insertionSort byNameAsc _).imp (fun hab => hab)
    · show ((List.insertionSort byNameAsc (db.filter (matchesScope r.scope))).map
        (mkLineItem r.period)).Perm _
      exact (List.perm_insertionSort byNameAsc _).map _

/-- Witness for C6 at the concrete catalog and query of the counterexample:
the natural-language rows are sorted by name ascending. -/
theorem c6_witness : List.Pairwise liNameAsc c6Items := by
  have h := (c6_amended_sorting_policies).2.2 c6Db c6Question
    ⟨Period.week, Scope.byType (str "hair")⟩ rfl c6Items rfl
  exact h.1

/-- C7: `computeTypeStatistics` returns one group per distinct type value
present in the input (a type with zero products never appears), each group
carrying the product count, average cost, minimum cost, maximum cost and sum
of sales-per-day of that type's rows, with groups ordered by type value
ascending; on {(hair, 10), (hair, 20), (perfume, 5)} it yields
hair{count 2, avg 15, min 10, max 20} then perfume{count 1, avg 5, min 5,
max 5}. -/
theorem c7_type_statistics (ps : List Product) :
    (∀ t, t ∈ (computeTypeStatistics ps).map TypeStat.type ↔ t ∈ ps.map Product.type)
    ∧ List.Pairwise (fun a b : TypeStat => lexLe a.type b.type = true)
        (computeTypeStatistics ps)
    ∧ ((computeTypeStatistics ps).map TypeStat.type).Nodup
    ∧ (∀ s ∈ computeTypeStatistics ps,
        ps.filter (fun p => p.type == s.type) ≠ []
        ∧ s.product_count = (ps.filter (fun p => p.type == s.type)).length
        ∧ s.avg_cost * (s.product_count : ℚ)
            = ((ps.filter (fun p => p.type == s.type)).map Product.cost).sum
        ∧ s.min_cost ∈ (ps.filter (fun p => p.type == s.type)).map Product.cost
        ∧ (∀ c ∈ (ps.filter (fun p => p.type == s.type)).map Product.cost,
            s.min_cost ≤ c)
        ∧ s.max_cost ∈ (ps.filter (fun p => p.type == s.type)).map Product.cost
        ∧ (∀ c ∈ (ps.filter (fun p => p.type == s.type)).map Product.cost,
            c ≤ s.max_cost)
        ∧ s.total_daily_sales
            = ((ps.filter (fun p => p.type == s.type)).map Product.sales_per_day).sum)
    ∧ computeTypeStatistics c7Products
        = [{ type := str "hair", product_count := 2, avg_cost := 15,
             min_cost := 10, max_cost := 20, total_daily_sales := 3 },
           { type := str "perfume", product_count := 1, avg_cost := 5,
             min_cost := 5, max_cost := 5, total_daily_sales := 3 }] := by
  have hperm := List.perm_insertionSort typeAsc ((ps.map Product.type).dedup)
  have hex : computeTypeStatistics c7Products
      = [{ type := str "hair", product_count := 2, avg_cost := 15,
           min_cost := 10, max_cost := 20, total_daily_sales := 3 },
         { type := str "perfume", product_count := 1, avg_cost := 5,
           min_cost := 5, max_cost := 5, total_daily_sales := 3 }] := by
    have he : computeTypeStatistics c7Products
        = [statsFor (str "hair") [c7P1, c7P2], statsFor (str "perfume") [c7P3]] := rfl
    rw [he]
    norm_num [statsFor, listMin, listMax, c7P1, c7P2, c7P3, min_def, max_def]
  refine ⟨?_, ?_, ?_, ?_, hex⟩
  · intro t
    rw [cts_types, hperm.mem_iff, List.mem_dedup]
  · unfold computeTypeStatistics
    rw [List.pairwise_map]
    exact (List.sorted_insertionSort typeAsc _).imp (fun hab => hab)
  · rw [cts_types]
    exact hperm.nodup_iff.mpr (List.nodup_dedup _)
  · intro s hs
    unfold computeTypeStatistics at hs
    rcases List.mem_map.mp hs with ⟨t, ht, rfl⟩
    simp only [statsFor]
    have htmem : t ∈ ps.map Product.type := List.mem_dedup.mp (hperm.mem_iff.mp ht)
    rcases List.mem_map.mp htmem with ⟨p, hp, hpt⟩
    have hpg : p ∈ ps.filter (fun x => x.type == t) :=
      List.mem_filter.mpr ⟨hp, by simp [hpt]⟩
    have hgne : ps.filter (fun x => x.type == t) ≠ [] := List.ne_nil_of_mem hpg
    have hmapne : (ps.filter (fun x => x.type == t)).map Product.cost ≠ [] :=
      List.ne_nil_of_mem (List.mem_map_of_mem Product.cost hpg)
    have hlen : ((ps.filter (fun x => x.type == t)).length : ℚ) ≠ 0 :=
      Nat.cast_ne_zero.mpr (List.length_pos.mpr hgne).ne'
    exact ⟨hgne, by trivial, div_mul_cancel₀ _ hlen,
      listMin_mem _ hmapne, fun c hc => listMin_le _ c hc,
      listMax_mem _ hmapne, fun c hc => le_listMax _ c hc, by trivial⟩

/-- Witness for C7: on the example products, "hair" appears among the
reported group types. -/
theorem c7_witness :
    str "hair" ∈ (computeTypeStatistics c7Products).map TypeStat.type :=
  ((c7_type_statistics c7Products).1 (str "hair")).mpr (by decide)

end ShopDB
